import Mathlib

/-!
Shallow embedding of the turbodiesel cache layer
(`src/turbodiesel/src/statement_wrappers.rs` and `src/src/cacher.rs`).

Stateful Rust code is modelled by explicit state passing:
a cache handle becomes a state value of an abstract state type `S`,
and the trait `CacheHandle` becomes a record of state-transforming
operations (`CacheOps`).  Rust iterators become step functions on an
explicit iterator-state structure; the pull loop of a consumer becomes
a fuelled drain function.  `Result<T, E>` becomes `Except E T`.
-/

namespace Turbodiesel

/-- Rust `CacheError { message, cause }` from `src/src/cacher.rs`.
The `cause` field is an opaque boxed error in Rust and carries no
information the claims depend on, so only the message is modelled. -/
structure CacheError where
  message : String
deriving DecidableEq, Repr

/-- The subset of `diesel::result::Error` the wrappers mention:
`Error::RollbackTransaction` (returned by the update wrapper on a failed
cache deletion) and an opaque database error used for inner query items. -/
inductive DieselError where
  | rollbackTransaction
  | databaseError (msg : String)
deriving DecidableEq, Repr

/-- Rust `QueryResult<U>` = `Result<U, diesel::result::Error>`. -/
abbrev QueryResult (U : Type) := Except DieselError U

/-- The serde bound `Serialize + DeserializeOwned` on the cached value
type: serialization may fail (as `serde_json::to_string` may), and
deserialization may fail (as `serde_json::from_str` may). -/
structure SerdeCodec (U : Type) where
  ser : U → Option String
  deser : String → Option U

/-- Round-trip law of the serde codec: deserializing a successful
serialization yields the original value.  This is the "bijective
serialization" constraint the spec puts on cached value types. -/
def SerdeCodec.RoundTrip {U : Type} (c : SerdeCodec U) : Prop :=
  ∀ (v : U) (s : String), c.ser v = some s → c.deser s = some v

/-- Abstract model of the Rust trait `CacheHandle`: `get` is read-only
(`&self` in Rust); `put` and `delete` may report an error and transform
the backing state (`&mut self`). -/
structure CacheOps (S U : Type) where
  get : S → String → Except CacheError (Option U)
  put : S → String → U → Option CacheError × S
  delete : S → String → Option CacheError × S

/-! ### In-memory hashmap cache (`src/src/cacher.rs`)

The backing `Rc<RefCell<HashMap<String, String>>>` is modelled as an
association list whose lookup takes the most recent binding; `insert`
prepends (overwriting for lookup purposes) and `remove` drops every
binding of the key, which matches `HashMap` observable behavior.
All handle clones of one `HashmapCache` share the one store, so a
handle is identified with the store state itself. -/

/-- The shared `HashMap<String, String>` store. -/
abbrev Store := List (String × String)

/-- Models `HashMap::get`: the value of the most recent binding of `key`. -/
def Store.lookup : Store → String → Option String
  | [], _ => none
  | (k, v) :: rest, key => if k = key then some v else Store.lookup rest key

/-- Models `HashMap::insert` (observable behavior under `lookup`). -/
def Store.insert (m : Store) (key val : String) : Store :=
  (key, val) :: m

/-- Models `HashMap::remove` (observable behavior under `lookup`). -/
def Store.erase (m : Store) (key : String) : Store :=
  m.filter (fun p => ¬ p.1 = key)

/-- Rust `HashmapCacheHandle::get`: look up the serialized string; on a hit,
deserialize (failure is a `CacheError`), on a miss return `Ok(None)`. -/
def hmGet {U : Type} (c : SerdeCodec U) (m : Store) (key : String) :
    Except CacheError (Option U) :=
  match m.lookup key with
  | some s =>
    match c.deser s with
    | some v => Except.ok (some v)
    | none => Except.error ⟨"Failed to deserialize value"⟩
  | none => Except.ok none

/-- Rust `HashmapCacheHandle::put`: serialize (failure is a `CacheError` and
the store is untouched), then insert the serialized string. -/
def hmPut {U : Type} (c : SerdeCodec U) (m : Store) (key : String) (v : U) :
    Option CacheError × Store :=
  match c.ser v with
  | some s => (none, m.insert key s)
  | none => (some ⟨"Failed to serialize value"⟩, m)

/-- Rust `HashmapCacheHandle::delete`: remove the key and always return `Ok(())`. -/
def hmDelete (m : Store) (key : String) : Option CacheError × Store :=
  (none, m.erase key)

/-- The `CacheHandle` implementation of `HashmapCacheHandle`. -/
def hashmapOps {U : Type} (c : SerdeCodec U) : CacheOps Store U where
  get := hmGet c
  put := hmPut c
  delete := hmDelete

/-- Rust `HashmapCache`: owner of the shared map. -/
structure HashmapCache where
  map : Store

/-- Rust `HashmapCache::handle` — every handle (and every `clone` of one,
which `Rc::clone`s the same cell) observes the owner's store. -/
def HashmapCache.handle (cc : HashmapCache) : Store :=
  cc.map

/-- Rust `impl Clone for HashmapCacheHandle`: a clone shares the same store. -/
def cloneHandle (h : Store) : Store :=
  h

/-! ### Populating iterator (`ResultCachingIterator`)

State: the remaining items of the inner iterator (each a
`QueryResult<(Row, Key)>`) together with the cache state. -/

/-- Rust `ResultCachingIterator::next`: pull one inner item; if it is
`Ok((row, key))`, `cache.put(key, row)` (an error is only logged), then
emit the item with the key projected away.  Returns the emitted item,
the remaining inner items, and the cache state. -/
def cachingNext {S U : Type} (ops : CacheOps S U)
    (inner : List (QueryResult (U × String))) (s : S) :
    Option (QueryResult U) × List (QueryResult (U × String)) × S :=
  match inner with
  | [] => (none, [], s)
  | Except.ok (u, k) :: rest => (some (Except.ok u), rest, (ops.put s k u).2)
  | Except.error e :: rest => (some (Except.error e), rest, s)

/-- A consumer's pull loop over `ResultCachingIterator`: call `next`
until it returns `None`, collecting the emitted items. -/
def cachingRun {S U : Type} (ops : CacheOps S U) :
    List (QueryResult (U × String)) → S → List (QueryResult U) × S
  | [], s => ([], s)
  | it :: rest, s =>
    match cachingNext ops (it :: rest) s with
    | (some o, _, s') =>
      let (l, sf) := cachingRun ops rest s'
      (o :: l, sf)
    | (none, _, s') => ([], s')

/-- The net cache effect of streaming a list of inner items through the
populating iterator: each `Ok((row, key))` is `put`, errors write nothing. -/
def cacheEffects {S U : Type} (ops : CacheOps S U) :
    List (QueryResult (U × String)) → S → S
  | [], s => s
  | Except.ok (u, k) :: rest, s => cacheEffects ops rest (ops.put s k u).2
  | Except.error _ :: rest, s => cacheEffects ops rest s

/-! ### Lookup iterator (`ResultCacheLookupIterator`) -/

/-- The state of `ResultCacheLookupIterator`: the remaining inner row
items, the remaining keys, the cache state, and the `populate` flag. -/
structure LookupState (S U : Type) where
  inner : List (QueryResult U)
  keys : List String
  cache : S
  populate : Bool

/-- Rust `ResultCacheLookupIterator::call_inner_and_cache`: pull one item
from the inner iterator.  On `Ok(val)`, if `populate` then
`cache.put(key, val)` (an error is only logged); pass the item through.
On `Err` pass the error through; on exhaustion return `None`. -/
def callInnerAndCache {S U : Type} (ops : CacheOps S U) (populate : Bool)
    (key : String) (inner : List (QueryResult U)) (s : S) :
    Option (QueryResult U) × List (QueryResult U) × S :=
  match inner with
  | [] => (none, [], s)
  | Except.ok v :: rest =>
    (some (Except.ok v), rest, if populate then (ops.put s key v).2 else s)
  | Except.error e :: rest => (some (Except.error e), rest, s)

/-- Rust `ResultCacheLookupIterator::next`: take the next key (`None` when
exhausted); `cache.get(key)`: on `Ok(Some(v))` yield the cached value,
on `Ok(None)` fall back to `call_inner_and_cache`, on `Err` call
`call_inner_and_cache`, discard its result and yield `None`. -/
def lookupNext {S U : Type} (ops : CacheOps S U) (st : LookupState S U) :
    Option (QueryResult U) × LookupState S U :=
  match st.keys with
  | [] => (none, st)
  | key :: ks =>
    match ops.get st.cache key with
    | Except.ok (some v) => (some (Except.ok v), { st with keys := ks })
    | Except.ok none =>
      let r := callInnerAndCache ops st.populate key st.inner st.cache
      (r.1, ⟨r.2.1, ks, r.2.2, st.populate⟩)
    | Except.error _ =>
      let r := callInnerAndCache ops st.populate key st.inner st.cache
      (none, ⟨r.2.1, ks, r.2.2, st.populate⟩)

/-- A consumer's fuelled pull loop over `ResultCacheLookupIterator`:
call `next` up to `fuel` times, stopping at the first `None`, and
collect the emitted items together with the final iterator state. -/
def lookupDrain {S U : Type} (ops : CacheOps S U) :
    Nat → LookupState S U → List (QueryResult U) × LookupState S U
  | 0, st => ([], st)
  | fuel + 1, st =>
    match lookupNext ops st with
    | (none, st') => ([], st')
    | (some it, st') =>
      let (l, stf) := lookupDrain ops fuel st'
      (it :: l, stf)

/-! ### Select wrappers and builder traits (`WrappableQuery`) -/

/-- Rust `SelectCacheReadWrapper`: the inner select, a key sequence, a cache
handle and the populate flag. -/
structure SelectCacheReadWrapper (T S : Type) where
  innerSelect : T
  keys : List String
  cache : S
  populate : Bool

/-- Rust `WrappableQuery::try_from_cache`: single key, `populate = false`. -/
def tryFromCache {T S : Type} (q : T) (cache : S) (key : String) :
    SelectCacheReadWrapper T S :=
  ⟨q, [key], cache, false⟩

/-- Rust `WrappableQuery::try_from_cache_and_populate`: single key,
`populate = true`. -/
def tryFromCacheAndPopulate {T S : Type} (q : T) (cache : S) (key : String) :
    SelectCacheReadWrapper T S :=
  ⟨q, [key], cache, true⟩

/-- Rust `WrappableQuery::try_from_cache_multi`: a key sequence,
`populate = false`. -/
def tryFromCacheMulti {T S : Type} (q : T) (cache : S) (keys : List String) :
    SelectCacheReadWrapper T S :=
  ⟨q, keys, cache, false⟩

/-- Rust `SelectCacheReadWrapper::internal_load` (success path): load the
inner select into its row iterator (`loadInner`) and wrap it in a
`ResultCacheLookupIterator`. -/
def SelectCacheReadWrapper.internalLoad {T S U : Type}
    (w : SelectCacheReadWrapper T S) (loadInner : T → List (QueryResult U)) :
    LookupState S U :=
  ⟨loadInner w.innerSelect, w.keys, w.cache, w.populate⟩

/-! ### Update wrapper (`UpdateWrapper`, `WrappableUpdate`) -/

/-- Rust `UpdateWrapper`: the inner update, the keys to invalidate, and a
cache handle. -/
structure UpdateWrapper (T S : Type) where
  innerUpdate : T
  keys : List String
  cache : S

/-- Rust `WrappableUpdate::invalidate_key`. -/
def invalidateKey {T S : Type} (u : T) (cache : S) (key : String) :
    UpdateWrapper T S :=
  ⟨u, [key], cache⟩

/-- Rust `WrappableUpdate::invalidate_keys`. -/
def invalidateKeys {T S : Type} (u : T) (cache : S) (keys : List String) :
    UpdateWrapper T S :=
  ⟨u, keys, cache⟩

/-- The deletion loop of `UpdateWrapper::execute`: delete each key in
order, stopping at the first error.  Returns the error (if any), the
cache state, and the trace of keys on which `delete` was called. -/
def deleteKeys {S U : Type} (ops : CacheOps S U) :
    List String → S → Option CacheError × S × List String
  | [], s => (none, s, [])
  | k :: ks, s =>
    match ops.delete s k with
    | (some e, s') => (some e, s', [k])
    | (none, s') =>
      let r := deleteKeys ops ks s'
      (r.1, r.2.1, k :: r.2.2)

/-- Rust `UpdateWrapper::execute` (the `ExecuteDsl` impl): first delete every
key; if any deletion fails return `Err(RollbackTransaction)` without
executing the inner update, otherwise delegate to the inner update's
`execute` and return its result verbatim.  `execInner` is the inner
update's execute contract; the `Bool` records whether it was invoked,
and the trace lists the keys passed to `cache.delete` in call order. -/
def updateExecute {T S U : Type} (ops : CacheOps S U) (w : UpdateWrapper T S)
    (execInner : T → QueryResult Nat) :
    QueryResult Nat × S × Bool × List String :=
  match deleteKeys ops w.keys w.cache with
  | (some _, s', tr) => (Except.error DieselError.rollbackTransaction, s', false, tr)
  | (none, s', tr) => (execInner w.innerUpdate, s', true, tr)

/-! ### Auxiliary definitions for stating and exercising the theorems -/

/-- The cache store obtained by `put`ting a list of key/value pairs in
order through the hashmap handle (the net effect of the populate path). -/
def putAll {U : Type} (c : SerdeCodec U) : List (String × U) → Store → Store
  | [], s => s
  | (k, v) :: rest, s => putAll c rest (hmPut c s k v).2

/-- A concrete serde codec on `Nat` (unary serialization) used to
evaluate the model on concrete inputs. -/
def unaryCodec : SerdeCodec Nat where
  ser n := some (String.mk (List.replicate n 'a'))
  deser s := some s.data.length

/-- A concrete serde codec whose deserialization rejects the sentinel
string "X": a store binding a key to "X" makes `get` fail, which
exercises the cache-read-failure paths. -/
def flakyCodec : SerdeCodec Nat where
  ser n := some (String.mk (List.replicate n 'a'))
  deser s := if s = "X" then none else some s.data.length

/-- A concrete cache model whose state is the list of deleted keys and
whose `delete` fails on the key "bad": exercises the update wrapper's
deletion-failure path. -/
def recordingOps : CacheOps (List String) Nat where
  get _ _ := Except.ok none
  put s _ _ := (none, s)
  delete s k :=
    if k = "bad" then (some ⟨"boom"⟩, s) else (none, s ++ [k])

/-! ### Helper lemmas about the hashmap store -/

theorem Store.lookup_insert_self (m : Store) (k v : String) :
    (m.insert k v).lookup k = some v := by
  simp [Store.insert, Store.lookup]

theorem Store.lookup_insert_ne (m : Store) {k k' : String} (h : ¬ k = k')
    (v : String) : (m.insert k v).lookup k' = m.lookup k' := by
  simp [Store.insert, Store.lookup, h]

theorem Store.lookup_erase_self (m : Store) (k : String) :
    (m.erase k).lookup k = none := by
  induction m with
  | nil => rfl
  | cons p rest ih =>
    rcases p with ⟨a, b⟩
    by_cases h : a = k
    · simpa [Store.erase, List.filter_cons, h] using ih
    · simpa [Store.erase, List.filter_cons, h, Store.lookup] using ih

theorem hmGet_of_lookup_none {U : Type} (c : SerdeCodec U) {m : Store}
    {k : String} (h : m.lookup k = none) : hmGet c m k = Except.ok none := by
  simp [hmGet, h]

theorem lookup_none_of_hmGet {U : Type} (c : SerdeCodec U) {m : Store}
    {k : String} (h : hmGet c m k = Except.ok none) : m.lookup k = none := by
  unfold hmGet at h
  cases hl : m.lookup k with
  | none => rfl
  | some s =>
    rw [hl] at h
    cases hd : c.deser s <;> simp [hd] at h

theorem unaryCodec_roundTrip : unaryCodec.RoundTrip := by
  intro v s h
  simp only [unaryCodec, Option.some.injEq] at h
  subst h
  simp [unaryCodec]

/-! ### The claims -/

/-- Claim C4: the populating iterator emits exactly the first components
of the inner items in order; for each `Ok` item the `(key, row)` pair is
written to the cache in the same step that emits the row (a put failure
does not abort the stream, as the run continues for every `CacheOps`,
including ones whose put always fails); each inner `Err` item is emitted
unchanged with nothing written to the cache for it; cache-layer errors
never appear as iterator elements on this path (items have type
`QueryResult U`, and the run equals the pure projection of the inner
items for every cache behavior). -/
theorem claim_C4 {S U : Type} (ops : CacheOps S U)
    (inner : List (QueryResult (U × String))) (s : S) :
    cachingRun ops inner s =
      (inner.map (fun r => r.map Prod.fst), cacheEffects ops inner s) ∧
    (∀ (u : U) (k : String) (rest : List (QueryResult (U × String))),
      cachingNext ops (Except.ok (u, k) :: rest) s =
        (some (Except.ok u), rest, (ops.put s k u).2)) ∧
    (∀ (e : DieselError) (rest : List (QueryResult (U × String))),
      cachingNext ops (Except.error e :: rest) s =
        (some (Except.error e), rest, s)) := by
  refine ⟨?_, fun u k rest => rfl, fun e rest => rfl⟩
  induction inner generalizing s with
  | nil => rfl
  | cons it rest ih =>
    cases it with
    | ok p =>
      rcases p with ⟨u, k⟩
      simp [cachingRun, cachingNext, cacheEffects, ih, Except.map]
    | error e =>
      simp [cachingRun, cachingNext, cacheEffects, ih, Except.map]

/-- Witness for C4 at a concrete input: a two-item stream with one `Ok`
and one `Err` item, through the hashmap cache. -/
theorem claim_C4_witness :
    cachingRun (hashmapOps unaryCodec)
        [Except.ok (2, "k"), Except.error (DieselError.databaseError "db")] [] =
      ([Except.ok 2, Except.error (DieselError.databaseError "db")], [("k", "aa")]) :=
  (claim_C4 (hashmapOps unaryCodec)
    [Except.ok (2, "k"), Except.error (DieselError.databaseError "db")] []).1

/-- Claim C8: the in-memory handle's `delete` returns `Ok(())` even when
the key is absent (it is `Ok` unconditionally), and after a delete with
no intervening put, `get` on that key returns `Ok(None)`. -/
theorem claim_C8 {U : Type} (c : SerdeCodec U) (m : Store) (k : String) :
    (hmDelete m k).1 = none ∧ hmGet c (hmDelete m k).2 k = Except.ok none := by
  refine ⟨rfl, ?_⟩
  have h := Store.lookup_erase_self m k
  simp [hmDelete, hmGet, h]

/-- Witness for C8 at a concrete input: deleting a key that is absent
from a store holding another key, then reading it back. -/
theorem claim_C8_witness :
    (hmDelete [("other", "a")] "k").1 = none ∧
    hmGet unaryCodec (hmDelete [("other", "a")] "k").2 "k" = Except.ok none :=
  claim_C8 unaryCodec [("other", "a")] "k"

/-- Claim C5: when `cache.get` fails on the current key, the lookup
iterator's `next` consumes exactly one item from the inner iterator
(when one is available — the remaining inner items are the original ones
minus the first) and returns `None` for that call; the cache error is
not yielded as an item. -/
theorem claim_C5 {S U : Type} (ops : CacheOps S U) (k : String)
    (ks : List String) (inner : List (QueryResult U)) (s : S) (pop : Bool)
    (e : CacheError) (hget : ops.get s k = Except.error e) :
    (lookupNext ops ⟨inner, k :: ks, s, pop⟩).1 = none ∧
    (lookupNext ops ⟨inner, k :: ks, s, pop⟩).2.inner = inner.drop 1 ∧
    (lookupNext ops ⟨inner, k :: ks, s, pop⟩).2.keys = ks := by
  rcases inner with _ | ⟨it, rest⟩
  · simp [lookupNext, hget, callInnerAndCache]
  · cases it <;> simp [lookupNext, hget, callInnerAndCache]

/-- Witness for C5 at a concrete input: a store whose value fails to
deserialize makes `get` fail; one inner row is present and is consumed. -/
theorem claim_C5_witness :
    hmGet flakyCodec [("k", "X")] "k" =
      Except.error ⟨"Failed to deserialize value"⟩ ∧
    (lookupNext (hashmapOps flakyCodec)
        ⟨[Except.ok 2], ["k"], [("k", "X")], false⟩).1 = none ∧
    (lookupNext (hashmapOps flakyCodec)
        ⟨[Except.ok 2], ["k"], [("k", "X")], false⟩).2.inner = [] :=
  ⟨rfl,
   (claim_C5 (hashmapOps flakyCodec) "k" [] [Except.ok 2] [("k", "X")] false
     ⟨"Failed to deserialize value"⟩ rfl).1,
   (claim_C5 (hashmapOps flakyCodec) "k" [] [Except.ok 2] [("k", "X")] false
     ⟨"Failed to deserialize value"⟩ rfl).2.1⟩

/-- Claim C10: on the cache-failure path with `populate = true`, when
the consumed inner item is an `Ok` row it is written to the cache under
the failing key in the same step that returns `None`; when the consumed
inner item is a database error, that error is discarded — `next` returns
`None` and the error never surfaces. -/
theorem claim_C10 {S U : Type} (ops : CacheOps S U) (k : String)
    (ks : List String) (inner : List (QueryResult U)) (s : S)
    (e : CacheError) (hget : ops.get s k = Except.error e) :
    (∀ (v : U) (rest : List (QueryResult U)), inner = Except.ok v :: rest →
      lookupNext ops ⟨inner, k :: ks, s, true⟩ =
        (none, ⟨rest, ks, (ops.put s k v).2, true⟩)) ∧
    (∀ (e' : DieselError) (rest : List (QueryResult U)),
      inner = Except.error e' :: rest →
      lookupNext ops ⟨inner, k :: ks, s, true⟩ = (none, ⟨rest, ks, s, true⟩)) := by
  constructor
  · rintro v rest rfl
    simp [lookupNext, hget, callInnerAndCache]
  · rintro e' rest rfl
    simp [lookupNext, hget, callInnerAndCache]

/-- Witness for C10 at a concrete input: under a failing `get`, an `Ok 2`
inner row is cached under the failing key ("aa" appears in the store) and
`None` is returned; an inner database error is silently discarded. -/
theorem claim_C10_witness :
    hmGet flakyCodec [("k", "X")] "k" =
      Except.error ⟨"Failed to deserialize value"⟩ ∧
    lookupNext (hashmapOps flakyCodec)
        ⟨[Except.ok 2], ["k"], [("k", "X")], true⟩ =
      (none, ⟨[], [], [("k", "aa"), ("k", "X")], true⟩) ∧
    lookupNext (hashmapOps flakyCodec)
        ⟨[Except.error (DieselError.databaseError "db")], ["k"], [("k", "X")], true⟩ =
      (none, ⟨[], [], [("k", "X")], true⟩) :=
  ⟨rfl,
   (claim_C10 (hashmapOps flakyCodec) "k" [] [Except.ok 2] [("k", "X")]
     ⟨"Failed to deserialize value"⟩ rfl).1 2 [] rfl,
   (claim_C10 (hashmapOps flakyCodec) "k" []
     [Except.error (DieselError.databaseError "db")] [("k", "X")]
     ⟨"Failed to deserialize value"⟩ rfl).2 (DieselError.databaseError "db") [] rfl⟩

/-- Claim C9: the lookup iterator is not fused.  With the inner iterator
exhausted, a `next` that returns `None` — because the current key missed
and could not be filled (left disjunct) or because the cache read failed
(right disjunct) — leaves the remaining keys in place, and the following
`next` on a hitting key yields `Some(Ok(cached value))` again. -/
theorem claim_C9 {S U : Type} (ops : CacheOps S U) (k1 k2 : String)
    (ks : List String) (s : S) (v : U) (pop : Bool)
    (h1 : ops.get s k1 = Except.ok none ∨ ∃ e, ops.get s k1 = Except.error e)
    (h2 : ops.get s k2 = Except.ok (some v)) :
    lookupNext ops ⟨[], k1 :: k2 :: ks, s, pop⟩ =
      (none, ⟨[], k2 :: ks, s, pop⟩) ∧
    lookupNext ops ⟨[], k2 :: ks, s, pop⟩ =
      (some (Except.ok v), ⟨[], ks, s, pop⟩) := by
  constructor
  · rcases h1 with h | ⟨e, h⟩ <;> simp [lookupNext, h, callInnerAndCache]
  · simp [lookupNext, h2]

/-- Witness for C9 at a concrete input: key "a" misses on an exhausted
inner iterator, so `next` yields `None`; key "b" is cached, so the
subsequent `next` yields it. -/
theorem claim_C9_witness :
    hmGet unaryCodec [("b", "a")] "a" = Except.ok none ∧
    hmGet unaryCodec [("b", "a")] "b" = Except.ok (some 1) ∧
    lookupNext (hashmapOps unaryCodec) ⟨[], ["a", "b"], [("b", "a")], false⟩ =
      (none, ⟨[], ["b"], [("b", "a")], false⟩) ∧
    lookupNext (hashmapOps unaryCodec) ⟨[], ["b"], [("b", "a")], false⟩ =
      (some (Except.ok 1), ⟨[], [], [("b", "a")], false⟩) :=
  ⟨rfl, rfl,
   (claim_C9 (hashmapOps unaryCodec) "a" "b" [] [("b", "a")] 1 false
     (Or.inl rfl) rfl).1,
   (claim_C9 (hashmapOps unaryCodec) "a" "b" [] [("b", "a")] 1 false
     (Or.inl rfl) rfl).2⟩

/-- Claim C6: `try_from_cache` and `try_from_cache_multi` build wrappers
with `populate = false`; with `populate = false`, a cache miss makes
`next` pull one row from the inner iterator and yield it (the emitted
item is exactly the head of the inner iterator) while the cache state is
left unchanged for every cache model — so `put` is never called on this
path; with `populate = true` the same miss does write the pulled row
through `put`. -/
theorem claim_C6 {T S U : Type} (ops : CacheOps S U) (q : T) (cs : S)
    (key : String) (keys' : List String) (k : String) (ks : List String)
    (inner : List (QueryResult U)) (s : S)
    (hmiss : ops.get s k = Except.ok none) :
    (tryFromCache q cs key).populate = false ∧
    (tryFromCacheMulti q cs keys').populate = false ∧
    lookupNext ops ⟨inner, k :: ks, s, false⟩ =
      (inner.head?, ⟨inner.tail, ks, s, false⟩) ∧
    (∀ (v : U) (rest : List (QueryResult U)), inner = Except.ok v :: rest →
      lookupNext ops ⟨inner, k :: ks, s, true⟩ =
        (some (Except.ok v), ⟨rest, ks, (ops.put s k v).2, true⟩)) := by
  refine ⟨rfl, rfl, ?_, ?_⟩
  · rcases inner with _ | ⟨it, rest⟩
    · simp [lookupNext, hmiss, callInnerAndCache]
    · cases it <;> simp [lookupNext, hmiss, callInnerAndCache]
  · rintro v rest rfl
    simp [lookupNext, hmiss, callInnerAndCache]

/-- Witness for C6 at a concrete input: a miss on an empty store pulls
the single inner row and yields it, and the store stays empty. -/
theorem claim_C6_witness :
    hmGet unaryCodec [] "k" = Except.ok none ∧
    lookupNext (hashmapOps unaryCodec) ⟨[Except.ok 2], ["k"], [], false⟩ =
      (some (Except.ok 2), ⟨[], [], [], false⟩) :=
  ⟨rfl,
   (claim_C6 (hashmapOps unaryCodec) () [] "k" ["k"] "k" [] [Except.ok 2] []
     rfl).2.2.1⟩

/-- The deletion loop of the update wrapper: the trace of keys passed to
`delete` is a prefix of the key sequence, and when no deletion fails the
trace is the whole key sequence. -/
theorem deleteKeys_trace {S U : Type} (ops : CacheOps S U) :
    ∀ (keys : List String) (s : S),
      (deleteKeys ops keys s).2.2 =
        keys.take (deleteKeys ops keys s).2.2.length ∧
      ((deleteKeys ops keys s).1 = none → (deleteKeys ops keys s).2.2 = keys) := by
  intro keys
  induction keys with
  | nil => exact fun s => ⟨rfl, fun _ => rfl⟩
  | cons k ks ih =>
    intro s
    rcases hdel : ops.delete s k with ⟨err, s'⟩
    cases err with
    | some e => simp [deleteKeys, hdel]
    | none =>
      have h := ih s'
      constructor
      · simpa [deleteKeys, hdel] using h.1
      · intro hnone
        rw [deleteKeys, hdel] at hnone ⊢
        simpa using h.2 (by simpa using hnone)

/-- Claim C1: `invalidate_key` is the singleton case of
`invalidate_keys`; executing the wrapper calls `cache.delete` on a
prefix of the key sequence in order; if all deletions succeed the trace
is all of `K`, the inner update is executed and its result is returned
verbatim; if any deletion fails, the result is the rollback-signalling
`Err(RollbackTransaction)` and the inner update is never executed. -/
theorem claim_C1 {T S U : Type} (ops : CacheOps S U) (u : T) (cs : S)
    (key : String) (keys : List String) (execInner : T → QueryResult Nat) :
    invalidateKey u cs key = invalidateKeys u cs [key] ∧
    (updateExecute ops (invalidateKeys u cs keys) execInner).2.2.2 =
      keys.take (updateExecute ops (invalidateKeys u cs keys) execInner).2.2.2.length ∧
    ((deleteKeys ops keys cs).1 = none →
      updateExecute ops (invalidateKeys u cs keys) execInner =
        (execInner u, (deleteKeys ops keys cs).2.1, true, keys)) ∧
    (∀ e, (deleteKeys ops keys cs).1 = some e →
      (updateExecute ops (invalidateKeys u cs keys) execInner).1 =
        Except.error DieselError.rollbackTransaction ∧
      (updateExecute ops (invalidateKeys u cs keys) execInner).2.2.1 = false) := by
  have htr := deleteKeys_trace ops keys cs
  refine ⟨rfl, ?_, ?_, ?_⟩
  · rcases hd : deleteKeys ops keys cs with ⟨err, s', tr⟩
    cases err <;> simpa [updateExecute, invalidateKeys, hd] using
      (by simpa [hd] using htr.1)
  · intro hnone
    rcases hd : deleteKeys ops keys cs with ⟨err, s', tr⟩
    rw [hd] at hnone
    cases err with
    | some e => simp at hnone
    | none =>
      have h2 := htr.2 (by rw [hd])
      rw [hd] at h2
      have h2' : tr = keys := h2
      simp [updateExecute, invalidateKeys, hd, h2']
  · intro e he
    rcases hd : deleteKeys ops keys cs with ⟨err, s', tr⟩
    rw [hd] at he
    cases err with
    | some e2 => simp [updateExecute, invalidateKeys, hd]
    | none => simp at he

/-- Witness for C1 at a concrete input: with a cache model whose
`delete` fails on the key "bad", executing the wrapper over keys
`["x", "bad"]` deletes "x", fails on "bad", returns
`Err(RollbackTransaction)` and never runs the inner update; over
`["x", "y"]` every deletion succeeds and the inner result `Ok 5` is
returned verbatim. -/
theorem claim_C1_witness :
    (deleteKeys recordingOps ["x", "bad"] []).1 = some ⟨"boom"⟩ ∧
    (updateExecute recordingOps (invalidateKeys () [] ["x", "bad"])
        (fun _ => Except.ok 5)).1 =
      Except.error DieselError.rollbackTransaction ∧
    (updateExecute recordingOps (invalidateKeys () [] ["x", "bad"])
        (fun _ => Except.ok 5)).2.2.1 = false ∧
    (deleteKeys recordingOps ["x", "y"] []).1 = none ∧
    updateExecute recordingOps (invalidateKeys () [] ["x", "y"])
        (fun _ => Except.ok 5) = (Except.ok 5, ["x", "y"], true, ["x", "y"]) :=
  ⟨rfl,
   ((claim_C1 recordingOps () [] "x" ["x", "bad"]
     (fun _ => Except.ok 5)).2.2.2 ⟨"boom"⟩ rfl).1,
   ((claim_C1 recordingOps () [] "x" ["x", "bad"]
     (fun _ => Except.ok 5)).2.2.2 ⟨"boom"⟩ rfl).2,
   rfl,
   (claim_C1 recordingOps () [] "x" ["x", "y"]
     (fun _ => Except.ok 5)).2.2.1 rfl⟩

/-- Draining the lookup iterator when every key hits: the emitted items
are the cached values in key order, and the inner iterator and cache
state are untouched. -/
theorem lookupDrain_allHits {S U : Type} (ops : CacheOps S U)
    (f : String → U) :
    ∀ (keys : List String) (inner : List (QueryResult U)) (s : S) (pop : Bool),
      (∀ k ∈ keys, ops.get s k = Except.ok (some (f k))) →
      lookupDrain ops (keys.length + 1) ⟨inner, keys, s, pop⟩ =
        (keys.map (fun k => Except.ok (f k)), ⟨inner, [], s, pop⟩) := by
  intro keys
  induction keys with
  | nil => intro inner s pop _; rfl
  | cons k ks ih =>
    intro inner s pop hh
    have hk := hh k (List.mem_cons_self k ks)
    have hstep : lookupNext ops ⟨inner, k :: ks, s, pop⟩ =
        (some (Except.ok (f k)), ⟨inner, ks, s, pop⟩) := by
      simp [lookupNext, hk]
    have hrest := ih inner s pop (fun k' hk' => hh k' (List.mem_cons_of_mem k hk'))
    have hlen : (k :: ks).length + 1 = ks.length + 1 + 1 := by simp
    rw [hlen, lookupDrain, hstep]
    simp [hrest]

/-- Claim C2: `try_from_cache` is the singleton case of
`try_from_cache_multi` (both set `populate = false`); when every key of
the key sequence hits, draining the lookup iterator built by
`internal_load` emits exactly one `Ok(cached value)` per key, in key
order, and the loaded inner row iterator is never pulled from (it is
returned intact, as is the cache state). -/
theorem claim_C2 {T S U : Type} (ops : CacheOps S U) (q : T)
    (loadInner : T → List (QueryResult U)) (cs : S) (key : String)
    (keys : List String) (f : String → U)
    (hhit : ∀ k ∈ keys, ops.get cs k = Except.ok (some (f k))) :
    tryFromCache q cs key = tryFromCacheMulti q cs [key] ∧
    lookupDrain ops (keys.length + 1)
        ((tryFromCacheMulti q cs keys).internalLoad loadInner) =
      (keys.map (fun k => Except.ok (f k)), ⟨loadInner q, [], cs, false⟩) :=
  ⟨rfl, lookupDrain_allHits ops f keys (loadInner q) cs false hhit⟩

/-- Witness for C2 at a concrete input: both keys are cached, the drain
emits both cached values in key order, and the single inner row is left
unpulled. -/
theorem claim_C2_witness :
    hmGet unaryCodec [("a", "a"), ("b", "aa")] "a" = Except.ok (some 1) ∧
    hmGet unaryCodec [("a", "a"), ("b", "aa")] "b" = Except.ok (some 2) ∧
    lookupDrain (hashmapOps unaryCodec) 3
        ((tryFromCacheMulti () [("a", "a"), ("b", "aa")] ["a", "b"]).internalLoad
          (fun _ => [Except.ok 9])) =
      ([Except.ok 1, Except.ok 2],
       ⟨[Except.ok 9], [], [("a", "a"), ("b", "aa")], false⟩) :=
  ⟨rfl, rfl,
   (claim_C2 (hashmapOps unaryCodec) () (fun _ => [Except.ok 9])
     [("a", "a"), ("b", "aa")] "a" ["a", "b"]
     (fun k => if k = "a" then 1 else 2)
     (by
       intro k hk
       rcases List.mem_cons.mp hk with h | h
       · subst h; rfl
       · rcases List.mem_cons.mp h with h2 | h2
         · subst h2; rfl
         · cases h2)).2⟩

/-- Claim C7: for every pair of handles obtained by `handle()`/`clone()`
from the same in-memory cache (which observe the same shared store),
after a successful `put(k, v)` through one handle, `get(k)` through the
other returns `Ok(Some(v))` — the serialize/deserialize round trip is
the identity on the shared store. -/
theorem claim_C7 {U : Type} (c : SerdeCodec U) (cc : HashmapCache)
    (k : String) (v : U) (hrt : c.RoundTrip)
    (hput : (hmPut c cc.handle k v).1 = none) :
    hmGet c (hmPut c cc.handle k v).2 k = Except.ok (some v) ∧
    cloneHandle cc.handle = cc.handle := by
  refine ⟨?_, rfl⟩
  cases hser : c.ser v with
  | none => simp [hmPut, hser] at hput
  | some str =>
    have hrt2 := hrt v str hser
    simp [hmPut, hser, hmGet, Store.lookup_insert_self, hrt2]

/-- Witness for C7 at a concrete input: put `3` under "k" on an empty
cache and read it back through the (shared-store) clone. -/
theorem claim_C7_witness :
    unaryCodec.RoundTrip ∧
    (hmPut unaryCodec (HashmapCache.mk []).handle "k" 3).1 = none ∧
    hmGet unaryCodec (hmPut unaryCodec (HashmapCache.mk []).handle "k" 3).2 "k" =
      Except.ok (some 3) :=
  ⟨unaryCodec_roundTrip, rfl,
   (claim_C7 unaryCodec (HashmapCache.mk []) "k" 3 unaryCodec_roundTrip rfl).1⟩

/-- A hashmap `put` leaves the binding of every other key unchanged
(also when the put fails to serialize). -/
theorem lookup_hmPut_ne {U : Type} (c : SerdeCodec U) (s0 : Store)
    (k : String) (r : U) {k' : String} (hne : ¬ k = k') :
    Store.lookup (hmPut c s0 k r).2 k' = Store.lookup s0 k' := by
  cases hser : c.ser r with
  | none => simp [hmPut, hser]
  | some str => simp [hmPut, hser, Store.lookup_insert_ne _ hne]

/-- After a hashmap `put` on a previously-absent key, the key's binding
is exactly the serialization of the value (absent iff serialization
failed). -/
theorem lookup_hmPut_self {U : Type} (c : SerdeCodec U) (s0 : Store)
    (k : String) (r : U) (h0 : Store.lookup s0 k = none) :
    Store.lookup (hmPut c s0 k r).2 k = c.ser r := by
  cases hser : c.ser r with
  | none => simpa [hmPut, hser] using h0
  | some str => simp [hmPut, hser, Store.lookup_insert_self]

/-- Draining the lookup iterator with `populate = true` when the keys
are distinct and all initially missing, with enough `Ok` rows in the
inner iterator: the emitted items are the first `n` inner rows in inner
order, the inner leftover is returned, the keys are exhausted, and the
final cache state is the store after `put`ting each key/row pair. -/
theorem lookupDrain_allMissPop {U : Type} (c : SerdeCodec U) :
    ∀ (keys : List String) (rows : List U) (rest : List (QueryResult U))
      (s0 : Store),
      keys.Nodup →
      (∀ k ∈ keys, Store.lookup s0 k = none) →
      rows.length = keys.length →
      lookupDrain (hashmapOps c) (keys.length + 1)
          ⟨rows.map Except.ok ++ rest, keys, s0, true⟩ =
        (rows.map Except.ok, ⟨rest, [], putAll c (keys.zip rows) s0, true⟩) := by
  intro keys
  induction keys with
  | nil =>
    intro rows rest s0 _ _ hlen
    have hr : rows = [] := List.length_eq_zero.mp (by simpa using hlen)
    subst hr
    rfl
  | cons k ks ih =>
    intro rows rest s0 hnd hmiss hlen
    rcases rows with _ | ⟨r, rs⟩
    · simp at hlen
    · have hmk : Store.lookup s0 k = none := hmiss k (List.mem_cons_self k ks)
      have hget : hmGet c s0 k = Except.ok none := hmGet_of_lookup_none c hmk
      have hstep : lookupNext (hashmapOps c)
          ⟨(r :: rs).map Except.ok ++ rest, k :: ks, s0, true⟩ =
          (some (Except.ok r),
           ⟨rs.map Except.ok ++ rest, ks, (hmPut c s0 k r).2, true⟩) := by
        simp [lookupNext, hget, callInnerAndCache, hashmapOps]
      have hknotin := (List.nodup_cons.mp hnd).1
      have hnd' := (List.nodup_cons.mp hnd).2
      have hmiss' : ∀ k' ∈ ks, Store.lookup (hmPut c s0 k r).2 k' = none := by
        intro k' hk'
        have hne : ¬ k = k' := fun h => hknotin (h ▸ hk')
        rw [lookup_hmPut_ne c s0 k r hne]
        exact hmiss k' (List.mem_cons_of_mem k hk')
      have hlen' : rs.length = ks.length := by simpa using hlen
      have hrest := ih rs rest (hmPut c s0 k r).2 hnd' hmiss' hlen'
      have hlen2 : (k :: ks).length + 1 = ks.length + 1 + 1 := by simp
      rw [hlen2, lookupDrain, hstep]
      simp [hrest, putAll, List.zip]

/-- The store after `put`ting distinct, initially-absent keys: each
written key is bound to the serialization of its row, and every other
key keeps its original binding. -/
theorem lookup_putAll {U : Type} (c : SerdeCodec U) :
    ∀ (keys : List String) (rows : List U) (s0 : Store),
      keys.Nodup → rows.length = keys.length →
      (∀ k ∈ keys, Store.lookup s0 k = none) →
      (∀ (i : Nat) (h1 : i < keys.length) (h2 : i < rows.length),
        Store.lookup (putAll c (keys.zip rows) s0) (keys.get ⟨i, h1⟩) =
          c.ser (rows.get ⟨i, h2⟩)) ∧
      (∀ k, k ∉ keys →
        Store.lookup (putAll c (keys.zip rows) s0) k = Store.lookup s0 k) := by
  intro keys
  induction keys with
  | nil =>
    intro rows s0 _ hlen _
    have hr : rows = [] := List.length_eq_zero.mp (by simpa using hlen)
    subst hr
    exact ⟨fun i h1 _ => absurd h1 (Nat.not_lt_zero i), fun k _ => rfl⟩
  | cons k ks ih =>
    intro rows s0 hnd hlen hmiss
    rcases rows with _ | ⟨r, rs⟩
    · simp at hlen
    · have hknotin := (List.nodup_cons.mp hnd).1
      have hnd' := (List.nodup_cons.mp hnd).2
      have hlen' : rs.length = ks.length := by simpa using hlen
      have hmiss' : ∀ k' ∈ ks, Store.lookup (hmPut c s0 k r).2 k' = none := by
        intro k' hk'
        have hne : ¬ k = k' := fun h => hknotin (h ▸ hk')
        rw [lookup_hmPut_ne c s0 k r hne]
        exact hmiss k' (List.mem_cons_of_mem k hk')
      have hih := ih rs (hmPut c s0 k r).2 hnd' hlen' hmiss'
      have hzip : (k :: ks).zip (r :: rs) = (k, r) :: ks.zip rs := rfl
      constructor
      · intro i h1 h2
        cases i with
        | zero =>
          have hfin : Store.lookup (putAll c (ks.zip rs) (hmPut c s0 k r).2) k =
              Store.lookup (hmPut c s0 k r).2 k := hih.2 k hknotin
          have hself := lookup_hmPut_self c s0 k r
            (hmiss k (List.mem_cons_self k ks))
          show Store.lookup (putAll c ((k :: ks).zip (r :: rs)) s0) k = c.ser r
          rw [hzip, putAll, hfin, hself]
        | succ j =>
          have hj1 : j < ks.length := by simpa using h1
          have hj2 : j < rs.length := by simpa using h2
          have hj := hih.1 j hj1 hj2
          show Store.lookup (putAll c ((k :: ks).zip (r :: rs)) s0)
              (ks.get ⟨j, hj1⟩) = c.ser (rs.get ⟨j, hj2⟩)
          rw [hzip, putAll]
          exact hj
      · intro k2 hk2
        have hne : ¬ k = k2 := fun h => hk2 (h ▸ List.mem_cons_self k ks)
        have hnotin : k2 ∉ ks := fun h => hk2 (List.mem_cons_of_mem k h)
        have ha := hih.2 k2 hnotin
        have hb := lookup_hmPut_ne c s0 k r hne
        show Store.lookup (putAll c ((k :: ks).zip (r :: rs)) s0) k2 =
          Store.lookup s0 k2
        rw [hzip, putAll, ha, hb]

/-- Claim C3: `try_from_cache_and_populate` builds a wrapper with
`populate = true`; for distinct keys that all miss and an inner iterator
holding at least `n = |K|` `Ok` rows, the drain emits exactly the first
`n` inner rows in inner order (leaving the leftover inner items), and
after consumption `cache.get(k_i) = Ok(Some(row_i))` for every `i`. -/
theorem claim_C3 {T U : Type} (c : SerdeCodec U) (q : T) (cs : Store)
    (key : String) (keys : List String) (rows : List U)
    (rest : List (QueryResult U)) (s0 : Store)
    (hrt : c.RoundTrip) (hnd : keys.Nodup)
    (hmiss : ∀ k ∈ keys, hmGet c s0 k = Except.ok none)
    (hser : ∀ r ∈ rows, (c.ser r).isSome = true)
    (hlen : rows.length = keys.length) :
    (tryFromCacheAndPopulate q cs key).populate = true ∧
    (lookupDrain (hashmapOps c) (keys.length + 1)
        ⟨rows.map Except.ok ++ rest, keys, s0, true⟩).1 = rows.map Except.ok ∧
    (lookupDrain (hashmapOps c) (keys.length + 1)
        ⟨rows.map Except.ok ++ rest, keys, s0, true⟩).2.inner = rest ∧
    (∀ (i : Nat) (h1 : i < keys.length) (h2 : i < rows.length),
      hmGet c
        (lookupDrain (hashmapOps c) (keys.length + 1)
          ⟨rows.map Except.ok ++ rest, keys, s0, true⟩).2.cache
        (keys.get ⟨i, h1⟩) = Except.ok (some (rows.get ⟨i, h2⟩))) := by
  have hmiss2 : ∀ k ∈ keys, Store.lookup s0 k = none :=
    fun k hk => lookup_none_of_hmGet c (hmiss k hk)
  have hdrain := lookupDrain_allMissPop c keys rows rest s0 hnd hmiss2 hlen
  have hputAll := lookup_putAll c keys rows s0 hnd hlen hmiss2
  refine ⟨rfl, ?_, ?_, ?_⟩
  · rw [hdrain]
  · rw [hdrain]
  · intro i h1 h2
    rw [hdrain]
    have hl := hputAll.1 i h1 h2
    have hs : (c.ser (rows.get ⟨i, h2⟩)).isSome = true :=
      hser (rows.get ⟨i, h2⟩) (List.get_mem rows i h2)
    rcases Option.isSome_iff_exists.mp hs with ⟨str, hstr⟩
    rw [hstr] at hl
    have hd := hrt (rows.get ⟨i, h2⟩) str hstr
    show hmGet c (putAll c (keys.zip rows) s0) (keys.get ⟨i, h1⟩) =
      Except.ok (some (rows.get ⟨i, h2⟩))
    rw [hmGet, hl]
    simp [hd]

/-- Witness for C3 at a concrete input: keys `["a", "b"]` both miss on
an empty store; the inner rows `1, 2` are emitted in order and are then
readable from the cache under their keys. -/
theorem claim_C3_witness :
    (["a", "b"] : List String).Nodup ∧
    hmGet unaryCodec [] "a" = Except.ok none ∧
    hmGet unaryCodec [] "b" = Except.ok none ∧
    (lookupDrain (hashmapOps unaryCodec) 3
        ⟨[Except.ok 1, Except.ok 2], ["a", "b"], [], true⟩).1 =
      [Except.ok 1, Except.ok 2] ∧
    hmGet unaryCodec
        (lookupDrain (hashmapOps unaryCodec) 3
          ⟨[Except.ok 1, Except.ok 2], ["a", "b"], [], true⟩).2.cache "a" =
      Except.ok (some 1) ∧
    hmGet unaryCodec
        (lookupDrain (hashmapOps unaryCodec) 3
          ⟨[Except.ok 1, Except.ok 2], ["a", "b"], [], true⟩).2.cache "b" =
      Except.ok (some 2) := by
  have hmiss : ∀ k ∈ (["a", "b"] : List String),
      hmGet unaryCodec [] k = Except.ok none := by
    intro k hk
    rcases List.mem_cons.mp hk with h | h
    · subst h; rfl
    · rcases List.mem_cons.mp h with h2 | h2
      · subst h2; rfl
      · cases h2
  have hser : ∀ r ∈ ([1, 2] : List Nat),
      (unaryCodec.ser r).isSome = true := by decide
  have h := claim_C3 unaryCodec () [] "a" ["a", "b"] [1, 2] [] []
    unaryCodec_roundTrip (by decide) hmiss hser rfl
  exact ⟨by decide, hmiss "a" (by simp), hmiss "b" (by simp),
    h.2.1, h.2.2.2 0 (by decide) (by decide), h.2.2.2 1 (by decide) (by decide)⟩

end Turbodiesel
